import Mathlib

/-!
Shallow embedding of the `MemoryTracker` core of
`src/memory_tracker.py` (Realtime Memory Allocation Tracker).

Modelling conventions:
* Memory quantities are exact rationals (`ℚ`).  The source operates on
  Python floats; `round(x, 2)` is modelled as exact round-half-to-even
  to two decimal places (Python 3 `round` semantics), and
  `numpy.polyfit(x, y, 1)` as the exact ordinary-least-squares slope.
* `collections.deque(maxlen=n)` is modelled by `capAppend`.
* Python dicts (insertion ordered) are modelled as association lists
  over the pid; `psutil.Process` handles are identified with their pid.
* psutil queries are injected inputs (`TickInput`): `query = none`
  models an exception raised while sampling host/self memory, and
  `procMem pid = none` models `NoSuchProcess`/`AccessDenied` when
  reading a tracked pid.  Raw inputs are byte counts; the tracker
  converts to MB and rounds, exactly as the source does.
* Timestamps are abstract naturals; wall-clock `uptime`, log output and
  the human-readable message strings of `add_process_to_track` /
  `remove_tracked_process` are not modelled (only their success flag).
* CPython raises `RuntimeError: dictionary changed size during
  iteration` when `remove_tracked_process` deletes a pid from
  `tracked_processes` while the tick's `for` loop iterates it; the
  exception is caught by the tick's outer `except`, so the remainder of
  that tick (leak check, `update_signal.emit`) is skipped.  This is
  modelled by the `aborted` flag of `sampleTracked`.
-/

/- Batteries marks the rational-number operations `@[irreducible]`,
which blocks `decide` on concrete runs of the model; restore
definitional transparency (the kernel ignores reducibility anyway). -/
set_option allowUnsafeReducibility true in
attribute [semireducible] Rat.add Rat.mul Rat.inv Rat.sub Rat.neg Rat.div

namespace MemTrack

/-- Python `round(x, 2)` is round-half-to-even; this is the integer
round-half-to-even used to build it. -/
def roundHalfEven (x : ℚ) : ℤ :=
  let f := ⌊x⌋
  if x - (f : ℚ) < 1/2 then f
  else if x - (f : ℚ) > 1/2 then f + 1
  else if f % 2 = 0 then f else f + 1

/-- `round(x, 2)` from the source, as exact rational rounding to two
decimal places. -/
def round2 (x : ℚ) : ℚ := (roundHalfEven (x * 100) : ℚ) / 100

/-- `deque(maxlen=cap)` append: the new element goes to the tail and,
when the buffer is full, the oldest entries are dropped from the head. -/
def capAppend (cap : ℕ) (xs : List α) (x : α) : List α :=
  (xs ++ [x]).drop (xs.length + 1 - cap)

/-- `d[k] = v` on an insertion-ordered Python dict: replace in place if
the key is present, else append at the tail. -/
def dictSet (d : List (ℕ × β)) (k : ℕ) (v : β) : List (ℕ × β) :=
  if k ∈ d.map Prod.fst then
    d.map (fun e => if e.1 = k then (k, v) else e)
  else d ++ [(k, v)]

/-- `del d[k]` on a Python dict (the key is assumed present in the
source; deleting an absent key is a no-op here). -/
def dictDel (d : List (ℕ × β)) (k : ℕ) : List (ℕ × β) :=
  d.filter (fun e => e.1 ≠ k)

/-- `d[k]` lookup. -/
def dictGet? (d : List (ℕ × β)) (k : ℕ) : Option β :=
  (d.find? (fun e => e.1 = k)).map Prod.snd

/-- Mutate the value stored at `k` in place (`d[k].append(...)`). -/
def dictModify (d : List (ℕ × β)) (k : ℕ) (f : β → β) : List (ℕ × β) :=
  d.map (fun e => if e.1 = k then (k, f e.2) else e)

/-- One element of `memory_history`: the per-tick host sample in MB
(lines 100–106 of the source). -/
structure HostMem where
  total : ℚ
  used : ℚ
  free : ℚ
  swap : ℚ
  percent : ℚ
deriving DecidableEq

/-- The mutable state of a `MemoryTracker` instance (lines 33–45). -/
structure TrackerState where
  maxHistory : ℕ
  memoryHistory : List HostMem
  processMemoryHistory : List ℚ
  timestamps : List ℕ
  leakThreshold : ℚ
  leakDetected : Bool
  trackedProcesses : List ℕ
  processHistory : List (ℕ × List ℚ)
deriving DecidableEq

/-- `MemoryTracker.__init__(max_history)` (default 1000 at call sites). -/
def init (maxHistory : ℕ) : TrackerState :=
  { maxHistory := maxHistory
    memoryHistory := []
    processMemoryHistory := []
    timestamps := []
    leakThreshold := 10
    leakDetected := false
    trackedProcesses := []
    processHistory := [] }

/-- `add_process_to_track(pid)` (lines 62–72).  `processExists` injects
whether `psutil.Process(pid)` succeeds; the returned `Bool` is the
success flag of the `(bool, message)` pair. -/
def add_process_to_track (s : TrackerState) (pid : ℕ) (processExists : Bool) :
    TrackerState × Bool :=
  if processExists then
    ({ s with
        trackedProcesses :=
          if pid ∈ s.trackedProcesses then s.trackedProcesses
          else s.trackedProcesses ++ [pid]
        processHistory := dictSet s.processHistory pid [] }, true)
  else (s, false)

/-- `remove_tracked_process(pid)` (lines 74–80). -/
def remove_tracked_process (s : TrackerState) (pid : ℕ) : TrackerState × Bool :=
  if pid ∈ s.trackedProcesses then
    ({ s with
        trackedProcesses := s.trackedProcesses.filter (fun p => p ≠ pid)
        processHistory := dictDel s.processHistory pid }, true)
  else (s, false)

/-- The slope coefficient of `np.polyfit(x, ys, 1)` with
`x = np.arange(len(ys))`: the ordinary-least-squares line fit. -/
def polyfitSlope (ys : List ℚ) : ℚ :=
  let n : ℚ := ys.length
  let xs : List ℚ := (List.range ys.length).map (fun i => (i : ℚ))
  let xbar := xs.sum / n
  let ybar := ys.sum / n
  let num := ((xs.zip ys).map (fun p => (p.1 - xbar) * (p.2 - ybar))).sum
  let den := (xs.map (fun x => (x - xbar) * (x - xbar))).sum
  num / den

/-- The leak detection block of the tick (lines 119–133), acting on the
self-process history just appended to.  Returns
`(new leak_detected, whether leak_alert was emitted)`. -/
def leakCheck (threshold : ℚ) (detected : Bool) (hist : List ℚ) : Bool × Bool :=
  if 30 < hist.length then
    let recent := hist.drop (hist.length - 30)
    let slope := polyfitSlope recent * 60
    if slope > threshold ∧ detected = false then (true, true)
    else if slope ≤ threshold ∧ detected = true then (false, false)
    else (detected, false)
  else (detected, false)

/-- The injected per-tick environment: one host/self query (raw byte
counts plus the percent figure) and the per-pid resident-memory query. -/
structure Snapshot where
  vmTotal : ℚ
  vmUsed : ℚ
  vmFree : ℚ
  vmPercent : ℚ
  swapUsed : ℚ
  selfRss : ℚ

structure TickInput where
  timestamp : ℕ
  query : Option Snapshot
  procMem : ℕ → Option ℚ

/-- The tracked-process loop of the tick (lines 110–117).  Iterates the
pids of `tracked_processes` in order; a successful read appends the
rounded MB value to that pid's history and records it in
`process_data`; a failed read untracks the pid and — because the dict
being iterated just changed size — aborts the loop (and with it the
rest of the tick).  Returns
`(tracked_processes, process_history, process_data, aborted)`. -/
def sampleTracked (cap : ℕ) (procMem : ℕ → Option ℚ) :
    List ℕ → List ℕ → List (ℕ × List ℚ) → List (ℕ × ℚ) →
    List ℕ × List (ℕ × List ℚ) × List (ℕ × ℚ) × Bool
  | [], tracked, history, data => (tracked, history, data, false)
  | pid :: rest, tracked, history, data =>
    match procMem pid with
    | some raw =>
      let mem := round2 (raw / 1048576)
      sampleTracked cap procMem rest tracked
        (dictModify history pid (fun h => capAppend cap h mem))
        (dictSet data pid mem)
    | none =>
      (tracked.filter (fun p => p ≠ pid), dictDel history pid, data, true)

/-- The `current_stats` dict emitted through `update_signal`
(lines 136–148). -/
structure SnapshotEvent where
  timestamp : ℕ
  total_memory : ℚ
  used_memory : ℚ
  free_memory : ℚ
  used_swap : ℚ
  memory_percent : ℚ
  process_memory : ℚ
  leak_detected : Bool
  process_data : List (ℕ × ℚ)
deriving DecidableEq

/-- One iteration of the `run` loop body (lines 84–151): the `try`
block of a tick.  Returns the new state, the snapshot event published
through `update_signal` (if any), and whether `leak_alert` fired.
`inp.query = none` models an exception in the host/self sampling
stage: it is logged and the whole tick is skipped. -/
def tick (s : TrackerState) (inp : TickInput) :
    TrackerState × Option SnapshotEvent × Bool :=
  match inp.query with
  | none => (s, none, false)
  | some q =>
    let total_mem := round2 (q.vmTotal / 1048576)
    let used_mem := round2 (q.vmUsed / 1048576)
    let free_mem := round2 (q.vmFree / 1048576)
    let used_swap := round2 (q.swapUsed / 1048576)
    let process_mem := round2 (q.selfRss / 1048576)
    let timestamps' := capAppend s.maxHistory s.timestamps inp.timestamp
    let memoryHistory' := capAppend s.maxHistory s.memoryHistory
      { total := total_mem, used := used_mem, free := free_mem,
        swap := used_swap, percent := q.vmPercent }
    let processMemoryHistory' :=
      capAppend s.maxHistory s.processMemoryHistory process_mem
    let st := sampleTracked s.maxHistory inp.procMem
      s.trackedProcesses s.trackedProcesses s.processHistory []
    let tracked' := st.1
    let history' := st.2.1
    let process_data := st.2.2.1
    let aborted := st.2.2.2
    let s1 : TrackerState :=
      { s with
          timestamps := timestamps'
          memoryHistory := memoryHistory'
          processMemoryHistory := processMemoryHistory'
          trackedProcesses := tracked'
          processHistory := history' }
    if aborted then (s1, none, false)
    else
      let lc := leakCheck s.leakThreshold s.leakDetected processMemoryHistory'
      ({ s1 with leakDetected := lc.1 },
       some { timestamp := inp.timestamp
              total_memory := total_mem
              used_memory := used_mem
              free_memory := free_mem
              used_swap := used_swap
              memory_percent := q.vmPercent
              process_memory := process_mem
              leak_detected := lc.1
              process_data := process_data },
       lc.2)

/-- The pandas DataFrame built by `get_history_df` (lines 160–179):
its columns, keyed as in the source. -/
structure HistoryDf where
  timestamp : List ℕ
  total_memory : List ℚ
  used_memory : List ℚ
  free_memory : List ℚ
  used_swap : List ℚ
  memory_percent : List ℚ
  process_memory : List ℚ
  procCols : List (ℕ × List ℚ)
deriving DecidableEq

/-- `get_history_df` (lines 160–179).  `pd.DataFrame(data)` raises
`ValueError` when the column lists have unequal lengths; that failure
is `none`.  An empty `timestamps` short-circuits to an empty frame. -/
def get_history_df (s : TrackerState) : Option HistoryDf :=
  if s.timestamps = [] then
    some { timestamp := [], total_memory := [], used_memory := [],
           free_memory := [], used_swap := [], memory_percent := [],
           process_memory := [], procCols := [] }
  else if s.memoryHistory.length = s.timestamps.length
      ∧ s.processMemoryHistory.length = s.timestamps.length
      ∧ ∀ e ∈ s.processHistory, e.2.length = s.timestamps.length then
    some { timestamp := s.timestamps
           total_memory := s.memoryHistory.map HostMem.total
           used_memory := s.memoryHistory.map HostMem.used
           free_memory := s.memoryHistory.map HostMem.free
           used_swap := s.memoryHistory.map HostMem.swap
           memory_percent := s.memoryHistory.map HostMem.percent
           process_memory := s.processMemoryHistory
           procCols := s.processHistory }
  else none

/-- Arithmetic mean of a pandas numeric column. -/
def seriesMean (xs : List ℚ) : ℚ := xs.sum / xs.length

/-- Maximum of a pandas numeric column (only applied to nonempty
columns in the source; `0` is a junk value for the empty column). -/
def seriesMax : List ℚ → ℚ
  | [] => 0
  | x :: rest => rest.foldl max x

/-- The stats dict of `get_summary_stats` (wall-clock `uptime`
omitted). -/
structure SummaryStats where
  avg_memory_usage : ℚ
  max_memory_usage : ℚ
  avg_process_memory : ℚ
  max_process_memory : ℚ
  leak_detected : Bool
  perProcess : List (ℕ × ℚ × ℚ)
deriving DecidableEq

/-- `get_summary_stats` returns `{}` before any sample exists, and a
stats dict otherwise. -/
inductive SummaryResult where
  | emptyDict
  | stats (st : SummaryStats)
deriving DecidableEq

/-- `get_summary_stats` (lines 181–203).  The `none` case is the
uncaught `ValueError` escaping from `get_history_df`. -/
def get_summary_stats (s : TrackerState) : Option SummaryResult :=
  if s.memoryHistory = [] then some SummaryResult.emptyDict
  else
    (get_history_df s).map (fun df =>
      SummaryResult.stats
        { avg_memory_usage := round2 (seriesMean df.used_memory)
          max_memory_usage := round2 (seriesMax df.used_memory)
          avg_process_memory := round2 (seriesMean df.process_memory)
          max_process_memory := round2 (seriesMax df.process_memory)
          leak_detected := s.leakDetected
          perProcess := s.trackedProcesses.filterMap (fun pid =>
            (dictGet? df.procCols pid).map (fun h =>
              (pid, round2 (seriesMean h), round2 (seriesMax h)))) })

/-- One externally triggered operation on the tracker: a scheduler tick,
or a control-surface call from the UI thread. -/
inductive Op where
  | tickOp (inp : TickInput)
  | trackOp (pid : ℕ) (processExists : Bool)
  | untrackOp (pid : ℕ)

def applyOp (s : TrackerState) : Op → TrackerState
  | Op.tickOp inp => (tick s inp).1
  | Op.trackOp pid ex => (add_process_to_track s pid ex).1
  | Op.untrackOp pid => (remove_tracked_process s pid).1

/-- The state reached after a sequence of operations. -/
def runOps (s : TrackerState) (ops : List Op) : TrackerState :=
  ops.foldl applyOp s

/-- Run a list of ticks, recording per tick the `leak_detected` value
after the tick and whether `leak_alert` fired on it. -/
def runTrace : TrackerState → List TickInput → TrackerState × List (Bool × Bool)
  | s, [] => (s, [])
  | s, inp :: rest =>
    let t := tick s inp
    let r := runTrace t.1 rest
    (r.1, (t.1.leakDetected, t.2.2) :: r.2)

/-- Run a list of ticks, collecting the snapshot events actually
published through `update_signal`. -/
def runEvents : TrackerState → List TickInput → TrackerState × List SnapshotEvent
  | s, [] => (s, [])
  | s, inp :: rest =>
    let t := tick s inp
    let r := runEvents t.1 rest
    (r.1, t.2.1.toList ++ r.2)

/-- Number of `Clear → Active` transitions along a trace of
`leak_detected` values, starting from state `prev`. -/
def countRises : Bool → List Bool → ℕ
  | _, [] => 0
  | prev, b :: rest =>
    (if prev = false ∧ b = true then 1 else 0) + countRises b rest

/-! ### The reachability invariant -/

/-- State invariant maintained by every operation: the three
time-aligned buffers have equal length, no buffer exceeds the
capacity, the registry is duplicate-free and its two dicts share the
same key sequence, per-process buffers never outgrow the timestamps
buffer, and every stored MB value is a fixed point of `round2`. -/
def Inv (s : TrackerState) : Prop :=
  s.timestamps.length = s.memoryHistory.length ∧
  s.timestamps.length = s.processMemoryHistory.length ∧
  s.timestamps.length ≤ s.maxHistory ∧
  s.trackedProcesses.Nodup ∧
  s.processHistory.map Prod.fst = s.trackedProcesses ∧
  (∀ e ∈ s.processHistory, e.2.length ≤ s.timestamps.length) ∧
  (∀ v ∈ s.memoryHistory, round2 v.used = v.used) ∧
  (∀ v ∈ s.processMemoryHistory, round2 v = v)

/-! ### Concrete scripted scenarios -/

/-- A scripted tick input: raw byte counts for the host used-memory
and the monitoring process's own resident memory, everything else
zero, and no tracked-pid read answered. -/
def mkTick (ts : ℕ) (usedBytes selfBytes : ℚ) : TickInput :=
  { timestamp := ts
    query := some { vmTotal := 0, vmUsed := usedBytes, vmFree := 0,
                    vmPercent := 0, swapUsed := 0, selfRss := selfBytes }
    procMem := fun _ => none }

/-- A tick whose self-process resident memory is `rssMB` megabytes. -/
def selfTickInput (rssMB : ℚ) : TickInput := mkTick 0 0 (rssMB * 1048576)

/-- `n` ticks whose self-process memory rises by 20 MB per sample:
20, 40, 60, … MB. -/
def rampInputs (n : ℕ) : List TickInput :=
  (List.range n).map (fun i => selfTickInput (20 * (i + 1)))

/-- `n` ticks with flat 100 MB self-process memory. -/
def flatInputs (n : ℕ) : List TickInput :=
  (List.range n).map (fun _ => selfTickInput 100)

/-- A tick that fails in the host/self sampling stage. -/
def failTick : TickInput :=
  { timestamp := 0, query := none, procMem := fun _ => none }

/-- A 31-sample self-process history rising 20 MB per sample. -/
def ramp31 : List ℚ := (List.range 31).map (fun i => (20 : ℚ) * (i + 1))

/-- Five scripted ticks used for the summary-statistics scenario:
the recorded host-used and self-process values are
0.01, 0.01, 0.01, 0.01, 0.02 MB, whose arithmetic mean 0.012 MB is not
representable with two decimals. -/
def c5Ops : List Op :=
  [Op.tickOp (mkTick 1 10486 10486), Op.tickOp (mkTick 2 10486 10486),
   Op.tickOp (mkTick 3 10486 10486), Op.tickOp (mkTick 4 10486 10486),
   Op.tickOp (mkTick 5 20972 20972)]

/-- Five scripted ticks with self-process values 1 … 5 MB and
timestamps 1 … 5, run against capacity 3 for the eviction scenario. -/
def c9Ops : List Op :=
  (List.range 5).map (fun i => Op.tickOp (mkTick (i + 1) 0 ((i + 1) * 1048576)))

/-- One tick followed by tracking pid 7: pid 7's buffer (length 0) is
then shorter than the timestamps buffer (length 1). -/
def c10Ops : List Op := [Op.tickOp (mkTick 1 0 0), Op.trackOp 7 true]

/-- Projection used to observe the returned average without spelling
out the whole stats record. -/
def summaryAvgUsed : SummaryResult → Option ℚ
  | SummaryResult.emptyDict => none
  | SummaryResult.stats st => some st.avg_memory_usage

/-- A tracker with pids 4 and 7 tracked, in that order. -/
def c2State : TrackerState :=
  runOps (init 1000) [Op.trackOp 4 true, Op.trackOp 7 true]

/-- A tick on which pid 4's read succeeds and pid 7's read fails. -/
def c2Input : TickInput :=
  { timestamp := 0
    query := some { vmTotal := 0, vmUsed := 0, vmFree := 0, vmPercent := 0,
                    swapUsed := 0, selfRss := 0 }
    procMem := fun p => if p = 4 then some 1048576 else none }

/-! ### Basic lemmas about the building blocks -/

theorem capAppend_length (cap : ℕ) (xs : List α) (x : α) :
    (capAppend cap xs x).length = min (xs.length + 1) cap := by
  simp only [capAppend, List.length_drop, List.length_append, List.length_singleton]
  omega

theorem capAppend_length_le (cap : ℕ) (xs : List α) (x : α) :
    (capAppend cap xs x).length ≤ cap := by
  rw [capAppend_length]; omega

theorem mem_capAppend {cap : ℕ} {xs : List α} {x y : α}
    (h : y ∈ capAppend cap xs x) : y ∈ xs ∨ y = x := by
  have h' := List.mem_of_mem_drop h
  rcases List.mem_append.mp h' with h'' | h''
  · exact Or.inl h''
  · exact Or.inr (List.mem_singleton.mp h'')

theorem roundHalfEven_intCast (k : ℤ) : roundHalfEven (k : ℚ) = k := by
  unfold roundHalfEven
  rw [Int.floor_intCast]
  norm_num

theorem round2_round2 (x : ℚ) : round2 (round2 x) = round2 x := by
  unfold round2
  rw [div_mul_cancel₀ _ (by norm_num : (100 : ℚ) ≠ 0), roundHalfEven_intCast]

theorem dictSet_keys (d : List (ℕ × β)) (k : ℕ) (v : β) :
    (dictSet d k v).map Prod.fst =
      if k ∈ d.map Prod.fst then d.map Prod.fst else d.map Prod.fst ++ [k] := by
  unfold dictSet
  split
  · rw [List.map_map]
    refine List.map_congr_left (fun e _ => ?_)
    by_cases he : e.1 = k
    · simp [he]
    · simp [he]
  · simp

theorem dictModify_keys (d : List (ℕ × β)) (k : ℕ) (f : β → β) :
    (dictModify d k f).map Prod.fst = d.map Prod.fst := by
  unfold dictModify
  rw [List.map_map]
  refine List.map_congr_left (fun e _ => ?_)
  by_cases he : e.1 = k
  · simp [he]
  · simp [he]

theorem dictDel_keys (d : List (ℕ × β)) (k : ℕ) :
    (dictDel d k).map Prod.fst = (d.map Prod.fst).filter (fun p => p ≠ k) := by
  unfold dictDel
  induction d with
  | nil => rfl
  | cons e rest ih =>
    simp only [ne_eq, decide_not] at ih ⊢
    simp only [List.filter_cons, List.map_cons]
    by_cases he : e.1 = k
    · simp [he, ih]
    · simp [he, ih]

theorem mem_dictModify {d : List (ℕ × β)} {k : ℕ} {f : β → β} {e : ℕ × β}
    (h : e ∈ dictModify d k f) :
    ∃ e₀ ∈ d, e = if e₀.1 = k then (k, f e₀.2) else e₀ := by
  unfold dictModify at h
  obtain ⟨e₀, he₀, rfl⟩ := List.mem_map.mp h
  exact ⟨e₀, he₀, rfl⟩

theorem mem_dictDel {d : List (ℕ × β)} {k : ℕ} {e : ℕ × β}
    (h : e ∈ dictDel d k) : e ∈ d ∧ e.1 ≠ k := by
  unfold dictDel at h
  have := List.mem_filter.mp h
  exact ⟨this.1, by simpa using this.2⟩

theorem dictGet?_eq_none {d : List (ℕ × β)} {k : ℕ}
    (h : k ∉ d.map Prod.fst) : dictGet? d k = none := by
  unfold dictGet?
  rw [List.find?_eq_none.mpr]
  · rfl
  · intro e he
    simp only [decide_eq_true_eq]
    intro hek
    exact h (List.mem_map.mpr ⟨e, he, hek⟩)

theorem dictGet?_isSome {d : List (ℕ × β)} {k : ℕ}
    (h : k ∈ d.map Prod.fst) : (dictGet? d k).isSome := by
  unfold dictGet?
  obtain ⟨e, he, hek⟩ := List.mem_map.mp h
  have : (d.find? (fun e => e.1 = k)).isSome := by
    rw [List.find?_isSome]
    exact ⟨e, he, by simpa using hek⟩
  cases hf : d.find? (fun e => e.1 = k) with
  | none => rw [hf] at this; simp at this
  | some e' => simp

theorem not_mem_filter_ne_self (l : List ℕ) (pid : ℕ) :
    pid ∉ l.filter (fun p => p ≠ pid) := by
  intro h
  have := List.mem_filter.mp h
  simp at this

/-! ### Lemmas about the tracked-process sampling loop -/

theorem sampleTracked_tracked_eq (cap : ℕ) (procMem : ℕ → Option ℚ)
    (queue : List ℕ) :
    ∀ (tracked : List ℕ) (history : List (ℕ × List ℚ)) (data : List (ℕ × ℚ)),
    (sampleTracked cap procMem queue tracked history data).1 = tracked ∨
      ∃ pid, (sampleTracked cap procMem queue tracked history data).1
        = tracked.filter (fun p => p ≠ pid) := by
  induction queue with
  | nil => intro tracked history data; exact Or.inl rfl
  | cons pid rest ih =>
    intro tracked history data
    cases hp : procMem pid with
    | some raw => simp only [sampleTracked, hp]; exact ih tracked _ _
    | none => simp only [sampleTracked, hp]; exact Or.inr ⟨pid, rfl⟩

theorem sampleTracked_keys (cap : ℕ) (procMem : ℕ → Option ℚ)
    (queue : List ℕ) :
    ∀ (tracked : List ℕ) (history : List (ℕ × List ℚ)) (data : List (ℕ × ℚ)),
    history.map Prod.fst = tracked →
    (sampleTracked cap procMem queue tracked history data).2.1.map Prod.fst
      = (sampleTracked cap procMem queue tracked history data).1 := by
  induction queue with
  | nil => intro tracked history data h; simpa using h
  | cons pid rest ih =>
    intro tracked history data h
    cases hp : procMem pid with
    | some raw =>
      simp only [sampleTracked, hp]
      exact ih tracked _ _ (by rw [dictModify_keys]; exact h)
    | none =>
      simp only [sampleTracked, hp]
      rw [dictDel_keys, h]

/-- Along a duplicate-free queue, every per-process buffer in the loop
result comes from a buffer of the input history, either untouched or
with exactly one element appended. -/
theorem sampleTracked_entry_src (cap : ℕ) (procMem : ℕ → Option ℚ)
    (queue : List ℕ) :
    ∀ (tracked : List ℕ) (history : List (ℕ × List ℚ)) (data : List (ℕ × ℚ)),
    queue.Nodup →
    ∀ e ∈ (sampleTracked cap procMem queue tracked history data).2.1,
      ∃ e₀ ∈ history, e.1 = e₀.1 ∧
        (e.2 = e₀.2 ∨ (e.1 ∈ queue ∧ ∃ v, e.2 = capAppend cap e₀.2 v)) := by
  induction queue with
  | nil =>
    intro tracked history data _ e he
    exact ⟨e, he, rfl, Or.inl rfl⟩
  | cons pid rest ih =>
    intro tracked history data hnd e he
    rw [List.nodup_cons] at hnd
    cases hp : procMem pid with
    | none =>
      simp only [sampleTracked, hp] at he
      obtain ⟨hmem, _⟩ := mem_dictDel he
      exact ⟨e, hmem, rfl, Or.inl rfl⟩
    | some raw =>
      simp only [sampleTracked, hp] at he
      obtain ⟨e₀', he₀', h1, h2⟩ := ih tracked _ _ hnd.2 e he
      obtain ⟨e₀, he₀, heq⟩ := mem_dictModify he₀'
      by_cases hk : e₀.1 = pid
      · rw [if_pos hk] at heq
        have hfst : e.1 = pid := by rw [h1, heq]
        rcases h2 with h2 | ⟨hin, v, hv⟩
        · refine ⟨e₀, he₀, by rw [hfst, hk], Or.inr ⟨by simp [hfst], ?_⟩⟩
          exact ⟨_, by rw [h2, heq]⟩
        · exact absurd (hfst ▸ hin) hnd.1
      · rw [if_neg hk] at heq
        rw [heq] at h1 h2
        refine ⟨e₀, he₀, h1, ?_⟩
        rcases h2 with h2 | ⟨hin, v, hv⟩
        · exact Or.inl h2
        · exact Or.inr ⟨List.mem_cons_of_mem _ hin, v, hv⟩

theorem sampleTracked_entry_length (cap t : ℕ) (procMem : ℕ → Option ℚ)
    (queue tracked : List ℕ) (history : List (ℕ × List ℚ)) (data : List (ℕ × ℚ))
    (hnd : queue.Nodup) (hh : ∀ e ∈ history, e.2.length ≤ t) (hcap : t ≤ cap) :
    ∀ e ∈ (sampleTracked cap procMem queue tracked history data).2.1,
      e.2.length ≤ min (t + 1) cap := by
  intro e he
  obtain ⟨e₀, he₀, _, h⟩ :=
    sampleTracked_entry_src cap procMem queue tracked history data hnd e he
  rcases h with h | ⟨_, v, hv⟩
  · have := hh e₀ he₀
    rw [h]; omega
  · rw [hv, capAppend_length]
    have := hh e₀ he₀
    omega

theorem sampleTracked_nodup (cap : ℕ) (procMem : ℕ → Option ℚ)
    (queue tracked : List ℕ) (history : List (ℕ × List ℚ)) (data : List (ℕ × ℚ))
    (h : tracked.Nodup) :
    (sampleTracked cap procMem queue tracked history data).1.Nodup := by
  rcases sampleTracked_tracked_eq cap procMem queue tracked history data with
    h1 | ⟨pid, h1⟩
  · rw [h1]; exact h
  · rw [h1]; exact h.filter _

theorem sampleTracked_tracked_subset (cap : ℕ) (procMem : ℕ → Option ℚ)
    (queue tracked : List ℕ) (history : List (ℕ × List ℚ)) (data : List (ℕ × ℚ)) :
    ∀ p ∈ (sampleTracked cap procMem queue tracked history data).1, p ∈ tracked := by
  intro p hp
  rcases sampleTracked_tracked_eq cap procMem queue tracked history data with
    h1 | ⟨pid, h1⟩
  · rwa [h1] at hp
  · rw [h1] at hp
    exact (List.mem_filter.mp hp).1

/-! ### Invariant preservation -/

theorem inv_init (cap : ℕ) : Inv (init cap) := by
  refine ⟨rfl, rfl, by simp [init], by simp [init], rfl, ?_, ?_, ?_⟩ <;>
    simp [init]

theorem mem_dictSet {d : List (ℕ × β)} {k : ℕ} {v : β} {e : ℕ × β}
    (h : e ∈ dictSet d k v) : e ∈ d ∨ e = (k, v) := by
  unfold dictSet at h
  split at h
  · obtain ⟨e₀, he₀, rfl⟩ := List.mem_map.mp h
    by_cases hk : e₀.1 = k
    · right; simp [hk]
    · left; simpa [hk] using he₀
  · rcases List.mem_append.mp h with h | h
    · exact Or.inl h
    · exact Or.inr (List.mem_singleton.mp h)

/-- The state after a successful host/self query: the three main
buffers each grow by one, the registry is updated by the sampling
loop, and `leak_detected` takes some new value. -/
theorem tick_state_some (s : TrackerState) (inp : TickInput) (q : Snapshot)
    (hq : inp.query = some q) :
    ∃ ld : Bool,
    (tick s inp).1 =
      { s with
          timestamps := capAppend s.maxHistory s.timestamps inp.timestamp
          memoryHistory := capAppend s.maxHistory s.memoryHistory
            { total := round2 (q.vmTotal / 1048576)
              used := round2 (q.vmUsed / 1048576)
              free := round2 (q.vmFree / 1048576)
              swap := round2 (q.swapUsed / 1048576)
              percent := q.vmPercent }
          processMemoryHistory := capAppend s.maxHistory s.processMemoryHistory
            (round2 (q.selfRss / 1048576))
          trackedProcesses := (sampleTracked s.maxHistory inp.procMem
            s.trackedProcesses s.trackedProcesses s.processHistory []).1
          processHistory := (sampleTracked s.maxHistory inp.procMem
            s.trackedProcesses s.trackedProcesses s.processHistory []).2.1
          leakDetected := ld } := by
  simp only [tick, hq]
  split
  · exact ⟨s.leakDetected, rfl⟩
  · exact ⟨_, rfl⟩

theorem inv_tick (s : TrackerState) (inp : TickInput) (h : Inv s) :
    Inv (tick s inp).1 := by
  obtain ⟨h1, h2, h3, h4, h5, h6, h7, h8⟩ := h
  cases hq : inp.query with
  | none =>
    simpa [tick, hq] using ⟨h1, h2, h3, h4, h5, h6, h7, h8⟩
  | some q =>
    obtain ⟨ld, hst⟩ := tick_state_some s inp q hq
    rw [hst]
    refine ⟨?_, ?_, ?_, ?_, ?_, ?_, ?_, ?_⟩
    · simp only [capAppend_length, h1]
    · simp only [capAppend_length, h2]
    · simp only [capAppend_length]; omega
    · exact sampleTracked_nodup _ _ _ _ _ _ h4
    · exact sampleTracked_keys _ _ _ _ _ _ h5
    · intro e he
      have := sampleTracked_entry_length s.maxHistory s.timestamps.length
        inp.procMem s.trackedProcesses s.trackedProcesses s.processHistory []
        h4 h6 h3 e he
      simp only [capAppend_length]
      omega
    · intro v hv
      rcases mem_capAppend hv with hv' | hv'
      · exact h7 v hv'
      · rw [hv']; exact round2_round2 _
    · intro v hv
      rcases mem_capAppend hv with hv' | hv'
      · exact h8 v hv'
      · rw [hv']; exact round2_round2 _

theorem inv_add (s : TrackerState) (pid : ℕ) (ex : Bool) (h : Inv s) :
    Inv (add_process_to_track s pid ex).1 := by
  obtain ⟨h1, h2, h3, h4, h5, h6, h7, h8⟩ := h
  cases ex with
  | false => simpa [add_process_to_track] using ⟨h1, h2, h3, h4, h5, h6, h7, h8⟩
  | true =>
    simp only [add_process_to_track, if_pos]
    refine ⟨h1, h2, h3, ?_, ?_, ?_, h7, h8⟩
    · by_cases hpid : pid ∈ s.trackedProcesses
      · simpa [hpid] using h4
      · simp only [hpid, if_false, List.nodup_append]
        exact ⟨h4, List.nodup_singleton pid, by simpa using hpid⟩
    · rw [dictSet_keys, h5]
    · intro e he
      rcases mem_dictSet he with he' | he'
      · exact h6 e he'
      · simp [he']

theorem inv_remove (s : TrackerState) (pid : ℕ) (h : Inv s) :
    Inv (remove_tracked_process s pid).1 := by
  obtain ⟨h1, h2, h3, h4, h5, h6, h7, h8⟩ := h
  unfold remove_tracked_process
  by_cases hpid : pid ∈ s.trackedProcesses
  · rw [if_pos hpid]
    refine ⟨h1, h2, h3, h4.filter _, ?_, ?_, h7, h8⟩
    · rw [dictDel_keys, h5]
    · intro e he
      exact h6 e (mem_dictDel he).1
  · rw [if_neg hpid]
    exact ⟨h1, h2, h3, h4, h5, h6, h7, h8⟩

theorem inv_applyOp (s : TrackerState) (op : Op) (h : Inv s) :
    Inv (applyOp s op) := by
  cases op with
  | tickOp inp => exact inv_tick s inp h
  | trackOp pid ex => exact inv_add s pid ex h
  | untrackOp pid => exact inv_remove s pid h

theorem inv_runOps (s : TrackerState) (ops : List Op) (h : Inv s) :
    Inv (runOps s ops) := by
  induction ops generalizing s with
  | nil => exact h
  | cons op rest ih => exact ih _ (inv_applyOp s op h)

theorem applyOp_maxHistory (s : TrackerState) (op : Op) :
    (applyOp s op).maxHistory = s.maxHistory := by
  cases op with
  | tickOp inp =>
    cases hq : inp.query with
    | none => simp [applyOp, tick, hq]
    | some q =>
      obtain ⟨ld, hst⟩ := tick_state_some s inp q hq
      simp [applyOp, hst]
  | trackOp pid ex =>
    cases ex <;> simp [applyOp, add_process_to_track]
  | untrackOp pid =>
    simp only [applyOp, remove_tracked_process]
    split <;> rfl

theorem runOps_maxHistory (s : TrackerState) (ops : List Op) :
    (runOps s ops).maxHistory = s.maxHistory := by
  induction ops generalizing s with
  | nil => rfl
  | cons op rest ih =>
    show (runOps (applyOp s op) rest).maxHistory = s.maxHistory
    rw [ih, applyOp_maxHistory]

/-! ### Further helper lemmas -/

theorem foldl_max_mem : ∀ (rest : List ℚ) (x : ℚ), rest.foldl max x ∈ x :: rest := by
  intro rest
  induction rest with
  | nil => intro x; simp
  | cons y t ih =>
    intro x
    have h := ih (max x y)
    show List.foldl max (max x y) t ∈ x :: y :: t
    rcases List.mem_cons.mp h with h | h
    · rcases max_choice x y with hm | hm
      · rw [h, hm]; exact List.mem_cons_self _ _
      · rw [h, hm]; exact List.mem_cons_of_mem _ (List.mem_cons_self _ _)
    · exact List.mem_cons_of_mem _ (List.mem_cons_of_mem _ h)

theorem seriesMax_mem (xs : List ℚ) (h : xs ≠ []) : seriesMax xs ∈ xs := by
  cases xs with
  | nil => exact absurd rfl h
  | cons x rest => exact foldl_max_mem rest x

theorem dictGet?_dictSet_self (d : List (ℕ × β)) (k : ℕ) (v : β) :
    dictGet? (dictSet d k v) k = some v := by
  unfold dictSet
  by_cases hk : k ∈ d.map Prod.fst
  · rw [if_pos hk]
    induction d with
    | nil => simp at hk
    | cons e rest ih =>
      by_cases he : e.1 = k
      · unfold dictGet?
        simp [List.find?_cons, he]
      · have hk' : k ∈ rest.map Prod.fst := by
          rw [List.map_cons] at hk
          rcases List.mem_cons.mp hk with h | h
          · exact absurd h.symm he
          · exact h
        unfold dictGet? at ih ⊢
        simp only [List.map_cons, List.find?_cons, if_neg he]
        rw [show (decide (e.1 = k)) = false by simpa using he]
        exact ih hk'
  · rw [if_neg hk]
    unfold dictGet?
    rw [List.find?_append, List.find?_eq_none.mpr, Option.none_or]
    · simp [List.find?_cons]
    · intro e he
      simp only [decide_eq_true_eq]
      intro hek
      exact hk (List.mem_map.mpr ⟨e, he, hek⟩)

theorem dictGet?_dictDel_self (d : List (ℕ × β)) (k : ℕ) :
    dictGet? (dictDel d k) k = none := by
  refine dictGet?_eq_none ?_
  rw [dictDel_keys]
  exact not_mem_filter_ne_self _ _

/-- If the reads of all earlier pids in the queue succeed and the read
of `pid` fails, the sampling loop removes `pid` from both dicts and
aborts. -/
theorem sampleTracked_first_fail (cap : ℕ) (procMem : ℕ → Option ℚ)
    (pre : List ℕ) :
    ∀ (post tracked : List ℕ) (history : List (ℕ × List ℚ))
      (data : List (ℕ × ℚ)) (pid : ℕ),
    (∀ p ∈ pre, (procMem p).isSome) → procMem pid = none →
    ∃ h' d', sampleTracked cap procMem (pre ++ pid :: post) tracked history data
      = (tracked.filter (fun p => p ≠ pid), dictDel h' pid, d', true) := by
  induction pre with
  | nil =>
    intro post tracked history data pid _ hpid
    simp only [List.nil_append, sampleTracked, hpid]
    exact ⟨history, data, rfl⟩
  | cons p pre' ih =>
    intro post tracked history data pid hpre hpid
    have hp := hpre p (List.mem_cons_self p pre')
    obtain ⟨raw, hraw⟩ := Option.isSome_iff_exists.mp hp
    simp only [List.cons_append, sampleTracked, hraw]
    exact ih post tracked _ _ pid
      (fun x hx => hpre x (List.mem_cons_of_mem _ hx)) hpid

/-- The sampling loop never adds a pid: a pid absent before a tick is
absent after it. -/
theorem tick_no_new_tracked (s : TrackerState) (inp : TickInput) (pid : ℕ)
    (h : pid ∉ s.trackedProcesses) : pid ∉ (tick s inp).1.trackedProcesses := by
  cases hq : inp.query with
  | none => simpa [tick, hq] using h
  | some q =>
    obtain ⟨ld, hst⟩ := tick_state_some s inp q hq
    rw [hst]
    intro hmem
    exact h (sampleTracked_tracked_subset _ _ _ _ _ _ _ hmem)

theorem leakCheck_alert_spec {thr : ℚ} {det : Bool} {hist : List ℚ}
    (h : (leakCheck thr det hist).2 = true) :
    det = false ∧ (leakCheck thr det hist).1 = true ∧
      30 < hist.length ∧
      polyfitSlope (hist.drop (hist.length - 30)) * 60 > thr := by
  simp only [leakCheck] at h ⊢
  split at h
  · rename_i hlen
    split at h
    · rename_i hc
      refine ⟨hc.2, ?_, hlen, hc.1⟩
      rw [if_pos hlen, if_pos hc]
    · split at h
      · simp at h
      · simp at h
  · simp at h

theorem leakCheck_no_transition_no_alert {thr : ℚ} {det : Bool} {hist : List ℚ}
    (h : (leakCheck thr det hist).1 = det) : (leakCheck thr det hist).2 = false := by
  by_cases ha : (leakCheck thr det hist).2 = true
  · obtain ⟨hdet, hnew, _, _⟩ := leakCheck_alert_spec ha
    rw [h, hdet] at hnew
    exact absurd hnew (by simp)
  · simpa using ha

theorem leakCheck_active_clear {thr : ℚ} {det : Bool} {hist : List ℚ}
    (hlen : 30 < hist.length) (hdet : det = true)
    (hslope : polyfitSlope (hist.drop (hist.length - 30)) * 60 ≤ thr) :
    leakCheck thr det hist = (false, false) := by
  simp only [leakCheck]
  rw [if_pos hlen, if_neg, if_pos ⟨hslope, hdet⟩]
  intro hc
  exact absurd hslope (not_le.mpr hc.1)

theorem mem_add_process_tracked (s : TrackerState) (pid : ℕ) :
    pid ∈ (add_process_to_track s pid true).1.trackedProcesses := by
  simp only [add_process_to_track, if_true]
  by_cases hpid : pid ∈ s.trackedProcesses
  · simp [hpid]
  · simp [hpid]

/-! ### Claim theorems -/

/-- C4: for every sequence of ticks and registry operations starting
from a fresh tracker, every history buffer's length is at most the
configured capacity, and the timestamps, host-memory and self-process
buffers have equal length after every operation. -/
theorem c4_buffer_invariants (cap : ℕ) (ops : List Op) :
    (runOps (init cap) ops).timestamps.length
        = (runOps (init cap) ops).memoryHistory.length ∧
    (runOps (init cap) ops).timestamps.length
        = (runOps (init cap) ops).processMemoryHistory.length ∧
    (runOps (init cap) ops).timestamps.length ≤ cap ∧
    (runOps (init cap) ops).memoryHistory.length ≤ cap ∧
    (runOps (init cap) ops).processMemoryHistory.length ≤ cap ∧
    ∀ e ∈ (runOps (init cap) ops).processHistory, e.2.length ≤ cap := by
  obtain ⟨h1, h2, h3, -, -, h6, -, -⟩ := inv_runOps (init cap) ops (inv_init cap)
  have hm : (runOps (init cap) ops).maxHistory = cap := runOps_maxHistory (init cap) ops
  rw [hm] at h3
  refine ⟨h1, h2, h3, by omega, by omega, ?_⟩
  intro e he
  have := h6 e he
  omega

/-- C4 witness: the bounds instantiated on the concrete five-tick run
at capacity 3, and on pid 7's buffer in the ragged scenario. -/
theorem c4_buffer_invariants_witness :
    (runOps (init 3) c9Ops).timestamps.length
      = (runOps (init 3) c9Ops).memoryHistory.length ∧
    (runOps (init 3) c9Ops).timestamps.length ≤ 3 ∧
    ((7 : ℕ), ([] : List ℚ)).2.length ≤ 1000 :=
  ⟨(c4_buffer_invariants 3 c9Ops).1, (c4_buffer_invariants 3 c9Ops).2.2.1,
    (c4_buffer_invariants 1000 c10Ops).2.2.2.2.2 (7, []) (by decide)⟩

/-- C7: `track(pid)` resolves the PID against the live system: on
success it registers the pid with an empty capped buffer and reports
success; when no such process exists it reports failure and leaves the
state untouched; and the two registry dicts always keep identical key
sequences, so the pid is never partially registered. -/
theorem c7_track_contract (s : TrackerState) (pid : ℕ) (ex : Bool) :
    (add_process_to_track s pid ex).2 = ex ∧
    (ex = true →
      pid ∈ (add_process_to_track s pid ex).1.trackedProcesses ∧
      dictGet? (add_process_to_track s pid ex).1.processHistory pid = some []) ∧
    (ex = false → (add_process_to_track s pid ex).1 = s) ∧
    (s.processHistory.map Prod.fst = s.trackedProcesses →
      (add_process_to_track s pid ex).1.processHistory.map Prod.fst
        = (add_process_to_track s pid ex).1.trackedProcesses) := by
  cases ex with
  | false => simp [add_process_to_track]
  | true =>
    simp only [add_process_to_track, if_true]
    refine ⟨trivial, fun _ => ⟨mem_add_process_tracked s pid, ?_⟩,
      fun h => by simp at h, fun hsync => ?_⟩
    · exact dictGet?_dictSet_self _ _ _
    · show (dictSet s.processHistory pid []).map Prod.fst = _
      rw [dictSet_keys, hsync]

/-- C7 witness: tracking pid 5 on a fresh tracker succeeds and
registers an empty buffer; tracking a nonexistent pid changes nothing;
and the two registry dicts stay key-synchronised. -/
theorem c7_track_contract_witness :
    (5 ∈ (add_process_to_track (init 1000) 5 true).1.trackedProcesses ∧
      dictGet? (add_process_to_track (init 1000) 5 true).1.processHistory 5
        = some []) ∧
    (add_process_to_track (init 1000) 5 false).1 = init 1000 ∧
    (add_process_to_track (init 1000) 5 true).1.processHistory.map Prod.fst
      = (add_process_to_track (init 1000) 5 true).1.trackedProcesses :=
  ⟨(c7_track_contract (init 1000) 5 true).2.1 rfl,
   (c7_track_contract (init 1000) 5 false).2.2.1 rfl,
   (c7_track_contract (init 1000) 5 true).2.2.2 rfl⟩

/-- C8: `untrack(pid)` removes and discards the pid's registry entry
and buffer when tracked, errors when not tracked, and `track` followed
immediately by `untrack` leaves no entry and no residual samples. -/
theorem c8_untrack_contract (s : TrackerState) (pid : ℕ) :
    (pid ∈ s.trackedProcesses →
      (remove_tracked_process s pid).2 = true ∧
      pid ∉ (remove_tracked_process s pid).1.trackedProcesses ∧
      dictGet? (remove_tracked_process s pid).1.processHistory pid = none) ∧
    (pid ∉ s.trackedProcesses → remove_tracked_process s pid = (s, false)) ∧
    (pid ∉ (remove_tracked_process
        (add_process_to_track s pid true).1 pid).1.trackedProcesses ∧
      dictGet? (remove_tracked_process
        (add_process_to_track s pid true).1 pid).1.processHistory pid = none ∧
      (remove_tracked_process (add_process_to_track s pid true).1 pid).2 = true) := by
  have hrem : ∀ (s' : TrackerState), pid ∈ s'.trackedProcesses →
      pid ∉ (remove_tracked_process s' pid).1.trackedProcesses ∧
      dictGet? (remove_tracked_process s' pid).1.processHistory pid = none ∧
      (remove_tracked_process s' pid).2 = true := by
    intro s' h
    unfold remove_tracked_process
    rw [if_pos h]
    exact ⟨not_mem_filter_ne_self _ _, dictGet?_dictDel_self _ _, rfl⟩
  have hadd : pid ∈ (add_process_to_track s pid true).1.trackedProcesses :=
    mem_add_process_tracked s pid
  refine ⟨fun h => ?_, fun h => ?_, hrem _ hadd⟩
  · obtain ⟨a, b, c⟩ := hrem s h
    exact ⟨c, a, b⟩
  · unfold remove_tracked_process
    rw [if_neg h]

/-- C8 witness: untracking a never-tracked pid on a fresh tracker
reports the `NotTracked` error and leaves the state unchanged, while
untracking the tracked pid 4 succeeds and discards its buffer. -/
theorem c8_untrack_contract_witness :
    remove_tracked_process (init 1000) 5 = (init 1000, false) ∧
    ((remove_tracked_process c2State 4).2 = true ∧
      4 ∉ (remove_tracked_process c2State 4).1.trackedProcesses ∧
      dictGet? (remove_tracked_process c2State 4).1.processHistory 4 = none) :=
  ⟨(c8_untrack_contract (init 1000) 5).2.1 (by decide),
   (c8_untrack_contract c2State 4).1 (by decide)⟩

/-- C9: history buffers have ring-buffer FIFO eviction: the new sample
goes to the tail, nothing is evicted while below capacity, the oldest
entry is evicted when full, and with capacity 3 recording five samples
leaves exactly the last three in arrival order. -/
theorem c9_ring_buffer (cap : ℕ) (xs : List ℚ) (x : ℚ) :
    (xs.length < cap → capAppend cap xs x = xs ++ [x]) ∧
    (0 < cap → xs.length = cap → capAppend cap xs x = xs.drop 1 ++ [x]) ∧
    ((runOps (init 3) c9Ops).processMemoryHistory = [3, 4, 5] ∧
      (runOps (init 3) c9Ops).timestamps = [3, 4, 5]) := by
  refine ⟨?_, ?_, by decide⟩
  · intro h
    unfold capAppend
    rw [Nat.sub_eq_zero_of_le (by omega), List.drop_zero]
  · intro hcap hlen
    unfold capAppend
    rw [show xs.length + 1 - cap = 1 by omega]
    exact List.drop_append_of_le_length (by omega)

/-- C9 witness: a below-capacity append keeps every element, and an
append to a full three-element buffer evicts the oldest entry. -/
theorem c9_ring_buffer_witness :
    capAppend 3 [1, 2] 7 = ([1, 2] : List ℚ) ++ [7] ∧
    capAppend 3 [1, 2, 3] 9 = ([1, 2, 3] : List ℚ).drop 1 ++ [9] :=
  ⟨(c9_ring_buffer 3 [1, 2] 7).1 (by decide),
   (c9_ring_buffer 3 [1, 2, 3] 9).2.1 (by decide) (by decide)⟩

/-- C10: in every reachable state in which some tracked process's
buffer length differs from the timestamps buffer's length,
`get_history_df` fails with an error instead of returning rows — and
therefore `get_summary_stats` fails too — and rows are returned only
when every per-process buffer has exactly the timestamps buffer's
length. -/
theorem c10_ragged_history_errors (cap : ℕ) (ops : List Op) :
    ((∃ e ∈ (runOps (init cap) ops).processHistory,
        e.2.length ≠ (runOps (init cap) ops).timestamps.length) →
      get_history_df (runOps (init cap) ops) = none ∧
      get_summary_stats (runOps (init cap) ops) = none) ∧
    (∀ df, get_history_df (runOps (init cap) ops) = some df →
      ∀ e ∈ (runOps (init cap) ops).processHistory,
        e.2.length = (runOps (init cap) ops).timestamps.length) := by
  obtain ⟨h1, h2, h3, h4, h5, h6, h7, h8⟩ := inv_runOps (init cap) ops (inv_init cap)
  constructor
  · rintro ⟨e, he, hne⟩
    have hlt : e.2.length < (runOps (init cap) ops).timestamps.length :=
      lt_of_le_of_ne (h6 e he) hne
    have hts : (runOps (init cap) ops).timestamps ≠ [] := by
      intro h0
      rw [h0] at hlt
      simp at hlt
    have hdf : get_history_df (runOps (init cap) ops) = none := by
      unfold get_history_df
      rw [if_neg hts, if_neg]
      rintro ⟨-, -, hall⟩
      exact hne (hall e he)
    refine ⟨hdf, ?_⟩
    unfold get_summary_stats
    rw [if_neg, hdf]
    · rfl
    · intro hmh
      rw [hmh] at h1
      simp only [List.length_nil] at h1
      omega
  · intro df hdf e he
    unfold get_history_df at hdf
    by_cases hts : (runOps (init cap) ops).timestamps = []
    · have hle := h6 e he
      rw [hts] at hle ⊢
      simp only [List.length_nil] at hle ⊢
      omega
    · rw [if_neg hts] at hdf
      split at hdf
      · rename_i hcond
        exact hcond.2.2 e he
      · simp at hdf

/-- C10 witness: tracking a pid after one tick has already been
sampled produces a ragged state in which both the row production and
the summary fail; conversely, when rows are produced every per-process
buffer matches the timestamps buffer. -/
theorem c10_ragged_history_errors_witness :
    (get_history_df (runOps (init 1000) c10Ops) = none ∧
      get_summary_stats (runOps (init 1000) c10Ops) = none) ∧
    ((4 : ℕ), ([] : List ℚ)).2.length
      = (runOps (init 1000) [Op.trackOp 4 true]).timestamps.length :=
  ⟨(c10_ragged_history_errors 1000 c10Ops).1 (by decide),
   (c10_ragged_history_errors 1000 [Op.trackOp 4 true]).2
     { timestamp := [], total_memory := [], used_memory := [], free_memory := [],
       used_swap := [], memory_percent := [], process_memory := [], procCols := [] }
     (by decide) (4, []) (by decide)⟩

/-- C6: a tick whose host/self memory query raises an internal error
skips the remaining pipeline stages — the state is unchanged, no
snapshot event and no alert are published — and the loop continues
with the subsequent ticks as if the failed tick had not happened. -/
theorem c6_query_error_tick (s : TrackerState) (inp : TickInput)
    (rest : List TickInput) (h : inp.query = none) :
    tick s inp = (s, none, false) ∧
    runEvents s (inp :: rest) = runEvents s rest := by
  have ht : tick s inp = (s, none, false) := by
    simp [tick, h]
  refine ⟨ht, ?_⟩
  simp only [runEvents, ht, Option.toList_none, List.nil_append]

/-- C6 witness: a failing tick on a fresh tracker publishes nothing
and the following tick proceeds as usual. -/
theorem c6_query_error_tick_witness :
    tick (init 1000) failTick = (init 1000, none, false) ∧
    runEvents (init 1000) (failTick :: [mkTick 1 0 0])
      = runEvents (init 1000) [mkTick 1 0 0] :=
  c6_query_error_tick (init 1000) failTick [mkTick 1 0 0] rfl

/-- C2: on a tick where reading a tracked pid's resident memory is
attempted and fails (all pids iterated before it read successfully),
that pid is untracked as a side effect and its buffer discarded, no
published mapping contains it (the snapshot event of that tick is
suppressed entirely by the dict-mutation-during-iteration abort), the
failure is not fatal — the loop continues with the next inputs — and
the pid is still absent from the registry after the next tick. -/
theorem c2_failed_pid_untracked (s : TrackerState) (inp : TickInput)
    (q : Snapshot) (pid : ℕ) (pre post : List ℕ)
    (hq : inp.query = some q)
    (hsplit : s.trackedProcesses = pre ++ pid :: post)
    (hpre : ∀ p ∈ pre, (inp.procMem p).isSome)
    (hpid : inp.procMem pid = none) :
    pid ∉ (tick s inp).1.trackedProcesses ∧
    dictGet? (tick s inp).1.processHistory pid = none ∧
    (tick s inp).2.1 = none ∧
    (∀ inp2, pid ∉ (tick (tick s inp).1 inp2).1.trackedProcesses) ∧
    (∀ rest, runEvents s (inp :: rest) = runEvents (tick s inp).1 rest) := by
  obtain ⟨h', d', hfail⟩ := sampleTracked_first_fail s.maxHistory inp.procMem pre
    post s.trackedProcesses s.processHistory [] pid hpre hpid
  rw [← hsplit] at hfail
  have htick : tick s inp =
      ({ s with
          timestamps := capAppend s.maxHistory s.timestamps inp.timestamp
          memoryHistory := capAppend s.maxHistory s.memoryHistory
            { total := round2 (q.vmTotal / 1048576)
              used := round2 (q.vmUsed / 1048576)
              free := round2 (q.vmFree / 1048576)
              swap := round2 (q.swapUsed / 1048576)
              percent := q.vmPercent }
          processMemoryHistory := capAppend s.maxHistory s.processMemoryHistory
            (round2 (q.selfRss / 1048576))
          trackedProcesses := s.trackedProcesses.filter (fun p => p ≠ pid)
          processHistory := dictDel h' pid }, none, false) := by
    simp [tick, hq, hfail]
  have h1 : pid ∉ (tick s inp).1.trackedProcesses := by
    rw [htick]
    exact not_mem_filter_ne_self _ _
  refine ⟨h1, ?_, ?_, ?_, ?_⟩
  · rw [htick]
    exact dictGet?_dictDel_self _ _
  · rw [htick]
  · intro inp2
    exact tick_no_new_tracked _ inp2 pid h1
  · intro rest
    simp only [runEvents, htick, Option.toList_none, List.nil_append]

/-- C2 witness: with pids 4 and 7 tracked, a tick on which pid 4 reads
fine and pid 7's read fails untracks pid 7, publishes nothing, keeps
running, and pid 7 stays untracked on the following tick. -/
theorem c2_failed_pid_untracked_witness :
    7 ∉ (tick c2State c2Input).1.trackedProcesses ∧
    dictGet? (tick c2State c2Input).1.processHistory 7 = none ∧
    (tick c2State c2Input).2.1 = none ∧
    (∀ inp2, 7 ∉ (tick (tick c2State c2Input).1 inp2).1.trackedProcesses) ∧
    (∀ rest, runEvents c2State (c2Input :: rest)
      = runEvents (tick c2State c2Input).1 rest) :=
  c2_failed_pid_untracked c2State c2Input
    { vmTotal := 0, vmUsed := 0, vmFree := 0, vmPercent := 0,
      swapUsed := 0, selfRss := 0 }
    7 [4] [] rfl (by decide) (by decide) rfl

/-- C3: the leak detector is a two-state machine with hysteresis: a
leak alert fires only on a tick where the projected rate exceeds the
threshold while the state is Clear, transitioning it to Active; while
Active, a projected rate at or below the threshold silently returns
the state to Clear with no alert; and any tick that leaves the state
unchanged emits no alert, so no duplicate alert is ever produced. -/
theorem c3_hysteresis (thr : ℚ) (det : Bool) (hist : List ℚ)
    (s : TrackerState) (inp : TickInput) :
    ((leakCheck thr det hist).2 = true →
      det = false ∧ (leakCheck thr det hist).1 = true ∧
      30 < hist.length ∧
      polyfitSlope (hist.drop (hist.length - 30)) * 60 > thr) ∧
    (30 < hist.length → det = true →
      polyfitSlope (hist.drop (hist.length - 30)) * 60 ≤ thr →
      leakCheck thr det hist = (false, false)) ∧
    ((leakCheck thr det hist).1 = det → (leakCheck thr det hist).2 = false) ∧
    ((tick s inp).2.2 = true →
      s.leakDetected = false ∧ (tick s inp).1.leakDetected = true) := by
  refine ⟨fun h => leakCheck_alert_spec h,
    fun hl hd hs => leakCheck_active_clear hl hd hs,
    fun h => leakCheck_no_transition_no_alert h, ?_⟩
  intro halert
  cases hq : inp.query with
  | none => simp [tick, hq] at halert
  | some q =>
    cases hab : (sampleTracked s.maxHistory inp.procMem s.trackedProcesses
        s.trackedProcesses s.processHistory []).2.2.2 with
    | true => simp [tick, hq, hab] at halert
    | false =>
      simp only [tick, hq, hab] at halert ⊢
      simp only [Bool.false_eq_true, if_false] at halert ⊢
      obtain ⟨hdet, hnew, -, -⟩ := leakCheck_alert_spec halert
      exact ⟨hdet, hnew⟩

set_option maxRecDepth 10000 in
/-- C3 witness: a Clear detector fed the 31-sample ramp fires the
alert and turns Active; an Active detector seeing a flat window
returns to Clear silently; a no-transition tick emits nothing; and the
31st ramp tick is exactly the alerting `Clear → Active` transition. -/
theorem c3_hysteresis_witness :
    (false = false ∧ (leakCheck 10 false ramp31).1 = true ∧
      30 < ramp31.length ∧
      polyfitSlope (ramp31.drop (ramp31.length - 30)) * 60 > 10) ∧
    leakCheck 10 true (List.replicate 31 (100 : ℚ)) = (false, false) ∧
    (leakCheck 10 false [(1 : ℚ)]).2 = false ∧
    ((runTrace (init 1000) (rampInputs 30)).1.leakDetected = false ∧
      (tick (runTrace (init 1000) (rampInputs 30)).1
        (selfTickInput 620)).1.leakDetected = true) :=
  ⟨(c3_hysteresis 10 false ramp31 (init 1000) failTick).1 (by decide),
   (c3_hysteresis 10 true (List.replicate 31 (100 : ℚ)) (init 1000) failTick).2.1
     (by decide) rfl (by decide),
   (c3_hysteresis 10 false [(1 : ℚ)] (init 1000) failTick).2.2.1 (by decide),
   (c3_hysteresis 10 false [] (runTrace (init 1000) (rampInputs 30)).1
     (selfTickInput 620)).2.2.2 (by decide)⟩

set_option maxRecDepth 10000 in
/-- C1 counterexample: feeding exactly 30 consecutive self-process
samples rising 20 MB per sample, with the default 10 MB/min threshold,
produces no `Clear → Active` transition and no alert at all — the
detector does not even evaluate — contradicting the claimed single
transition and single alert. -/
theorem c1_thirty_samples_counterexample :
    ¬ (((runTrace (init 1000) (rampInputs 30)).2.map Prod.snd).count true = 1 ∧
        countRises false
          ((runTrace (init 1000) (rampInputs 30)).2.map Prod.fst) = 1) ∧
    ((runTrace (init 1000) (rampInputs 30)).2.map Prod.snd).count true = 0 ∧
    countRises false ((runTrace (init 1000) (rampInputs 30)).2.map Prod.fst) = 0 ∧
    (runTrace (init 1000) (rampInputs 30)).1.leakDetected = false := by
  decide

set_option maxRecDepth 10000 in
/-- C1 amended: the leak detector evaluates exactly when the
self-process history holds strictly more than 30 samples (the source
tests `len > 30`, not `≥ 30`); with 30 or fewer samples it performs no
evaluation, leaves the state unchanged and emits nothing.  Feeding 31
consecutive samples rising 20 MB per sample with a 10 MB/min threshold
and 1-second interval transitions `Clear → Active` exactly once and
emits exactly one alert (on the 31st tick), while flat samples never
transition. -/
theorem c1_leak_window_amended :
    (∀ (thr : ℚ) (det : Bool) (hist : List ℚ), hist.length ≤ 30 →
      leakCheck thr det hist = (det, false)) ∧
    (((runTrace (init 1000) (rampInputs 31)).2.map Prod.snd).count true = 1 ∧
      countRises false
        ((runTrace (init 1000) (rampInputs 31)).2.map Prod.fst) = 1 ∧
      (runTrace (init 1000) (rampInputs 31)).1.leakDetected = true) ∧
    (((runTrace (init 1000) (flatInputs 35)).2.map Prod.snd).count true = 0 ∧
      countRises false
        ((runTrace (init 1000) (flatInputs 35)).2.map Prod.fst) = 0) := by
  refine ⟨?_, by decide, by decide⟩
  intro thr det hist h
  simp only [leakCheck]
  rw [if_neg (by omega)]

/-- C1 witness: a three-sample history is below the evaluation window,
so the detector is a no-op on it. -/
theorem c1_leak_window_amended_witness :
    leakCheck 10 false [1, 2, 3] = (false, false) :=
  c1_leak_window_amended.1 10 false [1, 2, 3] (by decide)

set_option maxRecDepth 10000 in
/-- C5 counterexample: five scripted ticks whose recorded host-used
values are 0.01, 0.01, 0.01, 0.01, 0.02 MB make `get_summary_stats`
report an average of 0.01 MB, while the arithmetic mean of the exact
recorded values is 0.012 MB — the summary rounds to two decimals, so
it is not exactly the mean. -/
theorem c5_rounded_mean_counterexample :
    (get_summary_stats (runOps (init 1000) c5Ops)).map summaryAvgUsed
      = some (some (1/100)) ∧
    seriesMean ((runOps (init 1000) c5Ops).memoryHistory.map HostMem.used)
      = 3/250 ∧
    (1/100 : ℚ) ≠ 3/250 := by
  decide

/-- C5 amended: the summary returns the empty dict when no samples
have been recorded; otherwise (whenever the row production succeeds,
i.e. the buffers are aligned) it returns the arithmetic mean of the
host used-memory and self-process series rounded to two decimals, and
their exact maximum (the stored samples already have two decimals, so
rounding the maximum changes nothing).  The computation is a pure
function of the state, so no stored series is mutated. -/
theorem c5_summary_amended (cap : ℕ) (ops : List Op) :
    ((runOps (init cap) ops).memoryHistory = [] →
      get_summary_stats (runOps (init cap) ops) = some SummaryResult.emptyDict) ∧
    ((runOps (init cap) ops).memoryHistory ≠ [] →
      (∀ e ∈ (runOps (init cap) ops).processHistory,
        e.2.length = (runOps (init cap) ops).timestamps.length) →
      ∃ st, get_summary_stats (runOps (init cap) ops)
          = some (SummaryResult.stats st) ∧
        st.avg_memory_usage = round2 (seriesMean
          ((runOps (init cap) ops).memoryHistory.map HostMem.used)) ∧
        st.max_memory_usage = seriesMax
          ((runOps (init cap) ops).memoryHistory.map HostMem.used) ∧
        st.avg_process_memory = round2 (seriesMean
          (runOps (init cap) ops).processMemoryHistory) ∧
        st.max_process_memory = seriesMax
          (runOps (init cap) ops).processMemoryHistory) := by
  obtain ⟨h1, h2, h3, h4, h5, h6, h7, h8⟩ := inv_runOps (init cap) ops (inv_init cap)
  constructor
  · intro hmh
    unfold get_summary_stats
    rw [if_pos hmh]
  · intro hne halign
    have hts : (runOps (init cap) ops).timestamps ≠ [] := by
      intro h0
      rw [h0] at h1
      simp only [List.length_nil] at h1
      exact hne (List.length_eq_zero.mp h1.symm)
    have hdf : get_history_df (runOps (init cap) ops) = some
        { timestamp := (runOps (init cap) ops).timestamps
          total_memory := (runOps (init cap) ops).memoryHistory.map HostMem.total
          used_memory := (runOps (init cap) ops).memoryHistory.map HostMem.used
          free_memory := (runOps (init cap) ops).memoryHistory.map HostMem.free
          used_swap := (runOps (init cap) ops).memoryHistory.map HostMem.swap
          memory_percent :=
            (runOps (init cap) ops).memoryHistory.map HostMem.percent
          process_memory := (runOps (init cap) ops).processMemoryHistory
          procCols := (runOps (init cap) ops).processHistory } := by
      unfold get_history_df
      rw [if_neg hts, if_pos ⟨h1.symm, h2.symm, halign⟩]
    have hsum : get_summary_stats (runOps (init cap) ops)
        = some (SummaryResult.stats
          { avg_memory_usage := round2 (seriesMean
              ((runOps (init cap) ops).memoryHistory.map HostMem.used))
            max_memory_usage := round2 (seriesMax
              ((runOps (init cap) ops).memoryHistory.map HostMem.used))
            avg_process_memory := round2 (seriesMean
              (runOps (init cap) ops).processMemoryHistory)
            max_process_memory := round2 (seriesMax
              (runOps (init cap) ops).processMemoryHistory)
            leak_detected := (runOps (init cap) ops).leakDetected
            perProcess := (runOps (init cap) ops).trackedProcesses.filterMap
              (fun pid => (dictGet? (runOps (init cap) ops).processHistory pid).map
                (fun h => (pid, round2 (seriesMean h), round2 (seriesMax h)))) }) := by
      unfold get_summary_stats
      rw [if_neg hne, hdf]
      rfl
    refine ⟨_, hsum, rfl, ?_, rfl, ?_⟩
    · obtain ⟨v, hv, hveq⟩ := List.mem_map.mp
        (seriesMax_mem ((runOps (init cap) ops).memoryHistory.map HostMem.used)
          (by simpa using hne))
      show round2 (seriesMax _) = seriesMax _
      rw [← hveq]
      exact h7 v hv
    · have hne2 : (runOps (init cap) ops).processMemoryHistory ≠ [] := by
        intro h0
        apply hne
        rw [h0] at h2
        simp only [List.length_nil] at h2
        refine List.length_eq_zero.mp ?_
        omega
      show round2 (seriesMax _) = seriesMax _
      exact h8 _ (seriesMax_mem _ hne2)

set_option maxRecDepth 10000 in
/-- C5 amended witness: on the five scripted ticks the summary is the
two-decimal rounding of the mean together with the exact maximum. -/
theorem c5_summary_amended_witness :
    (∃ st, get_summary_stats (runOps (init 1000) c5Ops)
        = some (SummaryResult.stats st) ∧
      st.avg_memory_usage = round2 (seriesMean
        ((runOps (init 1000) c5Ops).memoryHistory.map HostMem.used)) ∧
      st.max_memory_usage = seriesMax
        ((runOps (init 1000) c5Ops).memoryHistory.map HostMem.used) ∧
      st.avg_process_memory = round2 (seriesMean
        (runOps (init 1000) c5Ops).processMemoryHistory) ∧
      st.max_process_memory = seriesMax
        (runOps (init 1000) c5Ops).processMemoryHistory) ∧
    get_summary_stats (runOps (init 1000) []) = some SummaryResult.emptyDict :=
  ⟨(c5_summary_amended 1000 c5Ops).2 (by decide) (by decide),
   (c5_summary_amended 1000 []).1 rfl⟩

end MemTrack
